import Mathlib

/-!
Shallow embedding of `src/database.py` (class `ALPRDatabase`) of the
Automatic-License-Plate-Recognition repository.

Conventions of the embedding:
* Python `datetime.datetime` values are modelled by the `Timestamp`
  structure (microsecond granularity, exactly like CPython's datetime).
* Python floats are modelled by exact rationals (`ℚ`).
* The sqlite `detections` table is modelled as a list of `Row` in insertion
  order together with the AUTOINCREMENT counter; the image directory is the
  list of filenames present on disk.
* The outside world (whether `cv2.imwrite` succeeds, whether the INSERT
  raises `sqlite3.Error`) is passed in as explicit booleans.
* `log_detection` returns `None` and communicates through `print`; it is
  modelled by returning the new state, the list of emitted diagnostics
  (`LogEvent`, one per `print`, carrying the data the print formats) and a
  `PyResult` recording whether the call returned or escaped with an
  uncaught exception.
-/

/-- Model of a CPython `datetime.datetime` value, microsecond granularity. -/
structure Timestamp where
  year : ℕ
  month : ℕ
  day : ℕ
  hour : ℕ
  minute : ℕ
  second : ℕ
  micro : ℕ
deriving DecidableEq

/-- Gregorian leap-year rule, as in CPython's `datetime._is_leap`. -/
def isLeap (y : ℕ) : Bool := y % 4 == 0 && (y % 100 != 0 || y % 400 == 0)

/-- Days in a month, as in CPython's `datetime._days_in_month`. -/
def daysInMonth (y m : ℕ) : ℕ :=
  if m = 2 then (if isLeap y then 29 else 28)
  else if m = 4 ∨ m = 6 ∨ m = 9 ∨ m = 11 then 30
  else 31

/-- Days in year `y` before the first of month `m`. -/
def daysBeforeMonth (y m : ℕ) : ℕ :=
  (List.range (m - 1)).foldl (fun a i => a + daysInMonth y (i + 1)) 0

/-- Days of the proleptic Gregorian calendar before January 1 of year `y`,
as in CPython's `datetime._days_before_year`. -/
def daysBeforeYear (y : ℕ) : ℕ :=
  365 * (y - 1) + (y - 1) / 4 - (y - 1) / 100 + (y - 1) / 400

/-- Python `datetime.toordinal()`. -/
def Timestamp.toOrdinal (t : Timestamp) : ℕ :=
  daysBeforeYear t.year + daysBeforeMonth t.year t.month + t.day

/-- Absolute microsecond count of a timestamp; datetime subtraction in
`(datetime.datetime.now() - last_seen)` is the difference of these. -/
def Timestamp.toMicros (t : Timestamp) : ℕ :=
  (((t.toOrdinal * 24 + t.hour) * 60 + t.minute) * 60 + t.second) * 1000000 + t.micro

/-- Python `(a - b).total_seconds()` on datetimes, as an exact rational:
the microsecond difference divided by one million. -/
def diffSeconds (a b : Timestamp) : ℚ :=
  Rat.divInt ((a.toMicros : ℤ) - (b.toMicros : ℤ)) 1000000

/-- Field invariants of a CPython `datetime` value (the constructor that
`strptime` ends in validates exactly these ranges). -/
def Timestamp.valid (t : Timestamp) : Prop :=
  1 ≤ t.year ∧ t.year ≤ 9999 ∧ 1 ≤ t.month ∧ t.month ≤ 12 ∧
  1 ≤ t.day ∧ t.day ≤ daysInMonth t.year t.month ∧
  t.hour ≤ 23 ∧ t.minute ≤ 59 ∧ t.second ≤ 59 ∧ t.micro ≤ 999999

instance (t : Timestamp) : Decidable t.valid := by
  unfold Timestamp.valid
  infer_instance

/-- Valid datetime in the four-digit-year range: every value `datetime.now()`
can produce, where `strftime("%Y")` emits exactly four digits. -/
def Timestamp.canonical (t : Timestamp) : Prop := t.valid ∧ 1000 ≤ t.year

instance (t : Timestamp) : Decidable t.canonical := by
  unfold Timestamp.canonical
  infer_instance

/-- Decimal digit `k` (from the least significant, zero-based) of `n`, as a
character; `strftime` zero-pads its numeric directives with these. -/
def dig (n k : ℕ) : Char := Nat.digitChar (n / 10 ^ k % 10)

/-- Character list of `now.strftime("%Y-%m-%d %H:%M:%S.%f")`. -/
def timestampChars (t : Timestamp) : List Char :=
  [dig t.year 3, dig t.year 2, dig t.year 1, dig t.year 0, '-',
   dig t.month 1, dig t.month 0, '-', dig t.day 1, dig t.day 0, ' ',
   dig t.hour 1, dig t.hour 0, ':', dig t.minute 1, dig t.minute 0, ':',
   dig t.second 1, dig t.second 0, '.',
   dig t.micro 5, dig t.micro 4, dig t.micro 3, dig t.micro 2,
   dig t.micro 1, dig t.micro 0]

/-- `now.strftime("%Y-%m-%d %H:%M:%S.%f")`, the string stored in the
`timestamp` column (database.py line 88), for clock values in the
four-digit-year range. -/
def timestampStr (t : Timestamp) : String := ⟨timestampChars t⟩

/-- Character list of `f"plate_{now.strftime('%Y%m%d_%H%M%S_%f')}.jpg"`. -/
def imgFilenameChars (t : Timestamp) : List Char :=
  ['p', 'l', 'a', 't', 'e', '_',
   dig t.year 3, dig t.year 2, dig t.year 1, dig t.year 0,
   dig t.month 1, dig t.month 0, dig t.day 1, dig t.day 0, '_',
   dig t.hour 1, dig t.hour 0, dig t.minute 1, dig t.minute 0,
   dig t.second 1, dig t.second 0, '_',
   dig t.micro 5, dig t.micro 4, dig t.micro 3, dig t.micro 2,
   dig t.micro 1, dig t.micro 0,
   '.', 'j', 'p', 'g']

/-- Image filename generated at database.py line 89. -/
def imgFilename (t : Timestamp) : String := ⟨imgFilenameChars t⟩

/-- Numeric value of a decimal digit character. -/
def digitVal (c : Char) : ℕ := c.toNat - 48

/-- Greedily take up to `w` leading decimal digits (the behaviour of the
bounded `\d` groups of CPython's `_strptime` regex). -/
def takeDigits : ℕ → List Char → List Char × List Char
  | _, [] => ([], [])
  | 0, l => ([], l)
  | n + 1, c :: r =>
    if c.isDigit then
      let p := takeDigits n r
      (c :: p.1, p.2)
    else ([], c :: r)

/-- Value of a list of decimal digit characters, most significant first. -/
def digitsVal (ds : List Char) : ℕ := ds.foldl (fun a c => 10 * a + digitVal c) 0

/-- Parse one numeric `strptime` directive of maximum width `w`; at least
one digit must be present. -/
def parseField (w : ℕ) (l : List Char) : Option (ℕ × List Char) :=
  match takeDigits w l with
  | ([], _) => none
  | (ds, rest) => some (digitsVal ds, rest)

/-- Require the literal character `c` next, as `strptime` does between
directives. -/
def expectChar (c : Char) : List Char → Option (List Char)
  | x :: r => if x = c then some r else none
  | [] => none

/-- Model of `datetime.datetime.strptime(s, "%Y-%m-%d %H:%M:%S.%f")`
(database.py line 75): each numeric directive greedily matches up to its
maximum width (4 for `%Y`, 2 for the others, 6 for `%f`, whose digits are
right-padded to a microsecond count), the literal separators must match
exactly, no input may remain, and the extracted fields must form a valid
datetime. `none` models the uncaught `ValueError`. -/
def parseTimestamp (s : String) : Option Timestamp := do
  let (y, l) ← parseField 4 s.data
  let l ← expectChar '-' l
  let (mo, l) ← parseField 2 l
  let l ← expectChar '-' l
  let (d, l) ← parseField 2 l
  let l ← expectChar ' ' l
  let (h, l) ← parseField 2 l
  let l ← expectChar ':' l
  let (mi, l) ← parseField 2 l
  let l ← expectChar ':' l
  let (sec, l) ← parseField 2 l
  let l ← expectChar '.' l
  match takeDigits 6 l with
  | ([], _) => none
  | (ds, rest) =>
    if rest = [] then
      let t : Timestamp := ⟨y, mo, d, h, mi, sec, digitsVal ds * 10 ^ (6 - ds.length)⟩
      if t.valid then some t else none
    else none

/-- Python `.strip()` on a character list: drop leading and trailing
whitespace. -/
def pyStrip (l : List Char) : List Char :=
  ((l.dropWhile Char.isWhitespace).reverse.dropWhile Char.isWhitespace).reverse

/-- Python `plate_text.upper().strip()` (database.py lines 59 and 118);
`.upper()` is modelled on ASCII letters, where `Char.toUpper` agrees with
CPython. -/
def normalizeKey (s : String) : String := ⟨pyStrip (s.data.map Char.toUpper)⟩

/-- Round half to even of the fraction `n / d` (with `0 < d`): CPython's
`round` on exact values. -/
def roundHalfEven (n d : ℤ) : ℤ :=
  let f : ℤ := Int.fdiv n d
  let r : ℤ := n - f * d
  if 2 * r < d then f
  else if d < 2 * r then f + 1
  else if f % 2 = 0 then f else f + 1

/-- Python `round(confidence, 4)` (database.py line 103), on exact
rationals: scale by `10 ^ k`, round half to even, scale back. -/
def pyRound (q : ℚ) (k : ℕ) : ℚ :=
  Rat.divInt (roundHalfEven (q.num * ((10 ^ k : ℕ) : ℤ)) (q.den : ℤ)) ((10 ^ k : ℕ) : ℤ)

/-- One row of the sqlite `detections` table (database.py lines 40-48). -/
structure Row where
  id : ℕ
  timestamp : String
  plate_text : String
  confidence : ℚ
  image_path : String
deriving DecidableEq

/-- The persistent state: the `detections` table in insertion order, the
AUTOINCREMENT counter, and the filenames present in the image directory. -/
structure World where
  rows : List Row
  nextId : ℕ
  files : List String
deriving DecidableEq

/-- Freshly initialized store: empty table (AUTOINCREMENT starts at 1) and
empty image directory. -/
def emptyWorld : World := ⟨[], 1, []⟩

/-- One observable diagnostic of `log_detection`, one constructor per
`print` in the code, carrying the data that print formats. -/
inductive LogEvent where
  | skippedDup (plate : String) (elapsed : ℚ)
  | imwriteError (filename : String)
  | logged (plate : String)
  | insertError
deriving DecidableEq

/-- How a Python call ends: a normal return (the function returns `None`)
or an uncaught exception escaping the call. -/
inductive PyResult where
  | ret
  | raised
deriving DecidableEq

/-- SQL `SELECT timestamp FROM detections WHERE plate_text = ? ORDER BY id
DESC LIMIT 1` (database.py lines 65-70): the matching row with the largest
`id`. The whole row is kept in the model; the code reads its timestamp. -/
def latestRowFor (rows : List Row) (key : String) : Option Row :=
  (rows.filter (fun r => r.plate_text == key)).foldl
    (fun acc r =>
      match acc with
      | none => some r
      | some a => if a.id ≤ r.id then some r else some a)
    none

/-- Storage phase of `log_detection` (database.py lines 83-107): write the
image crop, then insert the metadata row. `imwriteOk` is the return value
of `cv2.imwrite`; `insertOk` is false when the INSERT raises
`sqlite3.Error`, which the code catches and reports. -/
def storeDetection (w : World) (key : String) (confidence : ℚ) (now : Timestamp)
    (imwriteOk insertOk : Bool) : World × List LogEvent × PyResult :=
  let fname := imgFilename now
  if imwriteOk then
    let w1 : World := ⟨w.rows, w.nextId, w.files ++ [fname]⟩
    if insertOk then
      (⟨w1.rows ++ [⟨w1.nextId, timestampStr now, key, pyRound confidence 4, fname⟩],
        w1.nextId + 1, w1.files⟩,
       [LogEvent.logged key], PyResult.ret)
    else (w1, [LogEvent.insertError], PyResult.ret)
  else (w, [LogEvent.imwriteError fname], PyResult.ret)

/-- `ALPRDatabase.log_detection` (database.py lines 55-107). -/
def logDetection (w : World) (plate : String) (confidence : ℚ) (now : Timestamp)
    (imwriteOk insertOk : Bool) : World × List LogEvent × PyResult :=
  let key := normalizeKey plate
  match latestRowFor w.rows key with
  | none => storeDetection w key confidence now imwriteOk insertOk
  | some r =>
    match parseTimestamp r.timestamp with
    | none => (w, [], PyResult.raised)
    | some lastSeen =>
      let timeDiff := diffSeconds now lastSeen
      if timeDiff < 5 then (w, [LogEvent.skippedDup key timeDiff], PyResult.ret)
      else storeDetection w key confidence now imwriteOk insertOk

/-- SQL `ORDER BY timestamp DESC`: descending comparison of the stored
timestamp strings. -/
def histLe (a b : Row) : Prop := b.timestamp ≤ a.timestamp

instance : DecidableRel histLe := fun a b => String.decidableLE b.timestamp a.timestamp

instance : IsTrans Row histLe := ⟨fun _ _ _ hab hbc => le_trans hbc hab⟩

instance : IsTotal Row histLe := ⟨fun a b => le_total b.timestamp a.timestamp⟩

/-- `ALPRDatabase.get_plate_history` (database.py lines 109-119): SELECT of
`(timestamp, confidence)` for the normalized key, `ORDER BY timestamp
DESC`. The call only reads, so it returns the store unchanged. -/
def getPlateHistory (w : World) (plate : String) : World × List (String × ℚ) :=
  (w,
   (List.insertionSort histLe
       (w.rows.filter (fun r => r.plate_text == normalizeKey plate))).map
     (fun r => (r.timestamp, r.confidence)))

/-- Arguments of one `log_detection` call together with its environment
(the clock value and the two injected storage outcomes). -/
structure Call where
  plate : String
  confidence : ℚ
  now : Timestamp
  imwriteOk : Bool
  insertOk : Bool

/-- State reached after one call (the Python caller ignores the `None`
return value). -/
def runCall (w : World) (c : Call) : World :=
  (logDetection w c.plate c.confidence c.now c.imwriteOk c.insertOk).1

/-- State reached after a sequence of calls. -/
def runCalls (w : World) (cs : List Call) : World := cs.foldl runCall w

/-- Referential consistency: every stored row points at a file that is
present in the image directory. -/
def filesOk (w : World) : Prop := ∀ r ∈ w.rows, r.image_path ∈ w.files

/-- Sample clock value. -/
def sampleT0 : Timestamp := ⟨2026, 1, 2, 10, 20, 30, 0⟩

/-- Sample clock value, 2 seconds after `sampleT0` (inside the window). -/
def sampleT2 : Timestamp := ⟨2026, 1, 2, 10, 20, 32, 0⟩

/-- Sample clock value, 6 seconds after `sampleT0` (outside the window). -/
def sampleT6 : Timestamp := ⟨2026, 1, 2, 10, 20, 36, 0⟩

/-- Row as `log_detection` inserts it at clock `sampleT0`. -/
def sampleRow : Row := ⟨1, timestampStr sampleT0, "ABC", 1, imgFilename sampleT0⟩

/-- Store holding exactly `sampleRow`, with its image present. -/
def sampleWorld : World := ⟨[sampleRow], 2, [imgFilename sampleT0]⟩

/-- Row whose timestamp has the sqlite `DEFAULT CURRENT_TIMESTAMP` shape
(`"YYYY-MM-DD HH:MM:SS"`, no fractional seconds). -/
def ctRow : Row := ⟨1, "2026-01-02 10:20:30", "ABC", 1, "x.jpg"⟩

/-- Store holding exactly `ctRow`. -/
def ctWorld : World := ⟨[ctRow], 2, ["x.jpg"]⟩

/-! ## Helper lemmas about the branches of `log_detection` -/

theorem storeDetection_true_true (w : World) (key : String) (c : ℚ) (now : Timestamp) :
    storeDetection w key c now true true =
      (⟨w.rows ++ [⟨w.nextId, timestampStr now, key, pyRound c 4, imgFilename now⟩],
        w.nextId + 1, w.files ++ [imgFilename now]⟩,
       [LogEvent.logged key], PyResult.ret) := rfl

theorem storeDetection_true_false (w : World) (key : String) (c : ℚ) (now : Timestamp) :
    storeDetection w key c now true false =
      (⟨w.rows, w.nextId, w.files ++ [imgFilename now]⟩,
       [LogEvent.insertError], PyResult.ret) := rfl

theorem storeDetection_false (w : World) (key : String) (c : ℚ) (now : Timestamp)
    (sOk : Bool) :
    storeDetection w key c now false sOk =
      (w, [LogEvent.imwriteError (imgFilename now)], PyResult.ret) := rfl

theorem logDetection_of_none (w : World) (p : String) (c : ℚ) (now : Timestamp)
    (iOk sOk : Bool) (h : latestRowFor w.rows (normalizeKey p) = none) :
    logDetection w p c now iOk sOk = storeDetection w (normalizeKey p) c now iOk sOk := by
  simp only [logDetection, h]

theorem logDetection_of_noParse (w : World) (p : String) (c : ℚ) (now : Timestamp)
    (iOk sOk : Bool) (r : Row) (hl : latestRowFor w.rows (normalizeKey p) = some r)
    (hp : parseTimestamp r.timestamp = none) :
    logDetection w p c now iOk sOk = (w, [], PyResult.raised) := by
  simp only [logDetection, hl, hp]

theorem logDetection_of_skip (w : World) (p : String) (c : ℚ) (now : Timestamp)
    (iOk sOk : Bool) (r : Row) (T : Timestamp)
    (hl : latestRowFor w.rows (normalizeKey p) = some r)
    (hp : parseTimestamp r.timestamp = some T) (hd : diffSeconds now T < 5) :
    logDetection w p c now iOk sOk =
      (w, [LogEvent.skippedDup (normalizeKey p) (diffSeconds now T)], PyResult.ret) := by
  simp only [logDetection, hl, hp, if_pos hd]

theorem logDetection_of_pass (w : World) (p : String) (c : ℚ) (now : Timestamp)
    (iOk sOk : Bool) (r : Row) (T : Timestamp)
    (hl : latestRowFor w.rows (normalizeKey p) = some r)
    (hp : parseTimestamp r.timestamp = some T) (hd : ¬ diffSeconds now T < 5) :
    logDetection w p c now iOk sOk = storeDetection w (normalizeKey p) c now iOk sOk := by
  simp only [logDetection, hl, hp, if_neg hd]

theorem logDetection_cases (w : World) (p : String) (c : ℚ) (now : Timestamp)
    (iOk sOk : Bool) :
    logDetection w p c now iOk sOk = storeDetection w (normalizeKey p) c now iOk sOk ∨
    (logDetection w p c now iOk sOk).1 = w := by
  cases hl : latestRowFor w.rows (normalizeKey p) with
  | none => left; exact logDetection_of_none w p c now iOk sOk hl
  | some r =>
    cases hp : parseTimestamp r.timestamp with
    | none => right; rw [logDetection_of_noParse w p c now iOk sOk r hl hp]
    | some T =>
      by_cases hd : diffSeconds now T < 5
      · right; rw [logDetection_of_skip w p c now iOk sOk r T hl hp hd]
      · left; exact logDetection_of_pass w p c now iOk sOk r T hl hp hd

theorem logDetection_rows_cases (w : World) (p : String) (c : ℚ) (now : Timestamp)
    (iOk sOk : Bool) :
    (logDetection w p c now iOk sOk).1.rows = w.rows ∨
    (logDetection w p c now iOk sOk).1.rows =
      w.rows ++ [⟨w.nextId, timestampStr now, normalizeKey p, pyRound c 4, imgFilename now⟩] := by
  rcases logDetection_cases w p c now iOk sOk with h | h
  · rw [h]
    cases iOk with
    | false => left; rw [storeDetection_false]
    | true =>
      cases sOk with
      | false => left; rw [storeDetection_true_false]
      | true => right; rw [storeDetection_true_true]
  · left; rw [h]

theorem logDetection_files_cases (w : World) (p : String) (c : ℚ) (now : Timestamp)
    (iOk sOk : Bool) :
    (logDetection w p c now iOk sOk).1.files = w.files ∨
    (logDetection w p c now iOk sOk).1.files = w.files ++ [imgFilename now] := by
  rcases logDetection_cases w p c now iOk sOk with h | h
  · rw [h]
    cases iOk with
    | false => left; rw [storeDetection_false]
    | true =>
      cases sOk with
      | false => right; rw [storeDetection_true_false]
      | true => right; rw [storeDetection_true_true]
  · left; rw [h]

theorem append_singleton_ne (l : List Row) (r : Row) : l ++ [r] ≠ l := by
  intro h
  have h2 := congrArg List.length h
  simp at h2

theorem logDetection_preserves_filesOk (w : World) (p : String) (c : ℚ) (now : Timestamp)
    (iOk sOk : Bool) (h : filesOk w) : filesOk (logDetection w p c now iOk sOk).1 := by
  rcases logDetection_cases w p c now iOk sOk with he | he
  · rw [he]
    cases iOk with
    | false => rw [storeDetection_false]; exact h
    | true =>
      cases sOk with
      | false =>
        rw [storeDetection_true_false]
        intro r hr
        exact List.mem_append_left _ (h r hr)
      | true =>
        rw [storeDetection_true_true]
        intro r hr
        rcases List.mem_append.mp hr with h1 | h1
        · exact List.mem_append_left _ (h r h1)
        · rw [List.mem_singleton.mp h1]
          exact List.mem_append_right _ (List.mem_singleton.mpr rfl)
  · rw [he]; exact h

theorem runCalls_filesOk (cs : List Call) (w : World) (h : filesOk w) :
    filesOk (runCalls w cs) := by
  induction cs generalizing w with
  | nil => exact h
  | cons a cs ih => exact ih _ (logDetection_preserves_filesOk _ _ _ _ _ _ h)

/-! ## Claim theorems -/

/-- C1: for every call `log_detection(p, c, img)`, the event is admitted if
and only if the store holds no prior row for the normalized key, or the
elapsed time between now and the timestamp of the most recently inserted
row for that key is at least 5 seconds; when suppressed the call performs
no further side effects (no image file written, no row inserted) and
reports the elapsed time since the last sighting. -/
theorem dedup_decision_rule (w : World) (p : String) (c : ℚ) (now : Timestamp)
    (iOk sOk : Bool) :
    (∀ r T, latestRowFor w.rows (normalizeKey p) = some r →
      parseTimestamp r.timestamp = some T → diffSeconds now T < 5 →
      logDetection w p c now iOk sOk =
        (w, [LogEvent.skippedDup (normalizeKey p) (diffSeconds now T)], PyResult.ret)) ∧
    ((logDetection w p c now true true).1.rows ≠ w.rows ↔
      (latestRowFor w.rows (normalizeKey p) = none ∨
        ∃ r T, latestRowFor w.rows (normalizeKey p) = some r ∧
          parseTimestamp r.timestamp = some T ∧ 5 ≤ diffSeconds now T)) := by
  constructor
  · intro r T hl hp hd
    exact logDetection_of_skip w p c now iOk sOk r T hl hp hd
  · cases hl : latestRowFor w.rows (normalizeKey p) with
    | none =>
      rw [logDetection_of_none w p c now true true hl, storeDetection_true_true]
      exact iff_of_true (append_singleton_ne _ _) (Or.inl rfl)
    | some r =>
      cases hp : parseTimestamp r.timestamp with
      | none =>
        rw [logDetection_of_noParse w p c now true true r hl hp]
        refine iff_of_false (by simp) ?_
        rintro (h | ⟨r', T', hr', hp', _⟩)
        · exact Option.noConfusion h
        · rw [Option.some.inj hr'] at hp
          rw [hp] at hp'
          exact Option.noConfusion hp'
      | some T =>
        by_cases hd : diffSeconds now T < 5
        · rw [logDetection_of_skip w p c now true true r T hl hp hd]
          refine iff_of_false (by simp) ?_
          rintro (h | ⟨r', T', hr', hp', hge⟩)
          · exact Option.noConfusion h
          · rw [Option.some.inj hr'] at hp
            rw [hp] at hp'
            rw [← Option.some.inj hp'] at hge
            exact absurd hd (not_lt.mpr hge)
        · rw [logDetection_of_pass w p c now true true r T hl hp hd, storeDetection_true_true]
          exact iff_of_true (append_singleton_ne _ _)
            (Or.inr ⟨r, T, rfl, hp, not_lt.mp hd⟩)

/-- Witness for C1: at the concrete store `sampleWorld` holding one row for
key `"ABC"` admitted at `sampleT0`, a call for `"abc"` two seconds later is
suppressed with no side effects, reporting the elapsed time. -/
theorem dedup_decision_rule_witness :
    logDetection sampleWorld "abc" 1 sampleT2 true true =
      (sampleWorld,
       [LogEvent.skippedDup (normalizeKey "abc") (diffSeconds sampleT2 sampleT0)],
       PyResult.ret) :=
  (dedup_decision_rule sampleWorld "abc" 1 sampleT2 true true).1 sampleRow sampleT0
    (by decide) (by decide) (by decide)

/-- C2: if the image write step fails, no metadata row is inserted (and the
image directory is not extended beyond at most the one filename of this
call); for every sequence of calls starting from the fresh store, every row
present in the store has its image file present in the image directory. -/
theorem no_dangling_rows :
    (∀ (w : World) (p : String) (c : ℚ) (now : Timestamp) (sOk : Bool),
      (logDetection w p c now false sOk).1 = w) ∧
    (∀ (w : World) (p : String) (c : ℚ) (now : Timestamp) (iOk sOk : Bool),
      (logDetection w p c now iOk sOk).1.files = w.files ∨
      (logDetection w p c now iOk sOk).1.files = w.files ++ [imgFilename now]) ∧
    (∀ cs : List Call,
      ((runCalls emptyWorld cs).rows.all
        (fun r => (runCalls emptyWorld cs).files.contains r.image_path)) = true) := by
  refine ⟨?_, logDetection_files_cases, ?_⟩
  · intro w p c now sOk
    rcases logDetection_cases w p c now false sOk with h | h
    · rw [h, storeDetection_false]
    · exact h
  · intro cs
    have h := runCalls_filesOk cs emptyWorld (by intro r hr; cases hr)
    simp only [List.all_eq_true, List.contains, List.elem_eq_mem, decide_eq_true_iff]
    exact h

/-- C3 counterexample: the claim says the caller can distinguish success,
suppression and failure from the returned value. At two concrete calls one
of which inserts a row (the logged diagnostic is emitted) and one of which
is suppressed (the skip diagnostic is emitted), the Python return value is
identical (`None` in both cases), so the returned value distinguishes
nothing. -/
theorem outcome_surface_counterexample :
    (logDetection sampleWorld "abc" 1 sampleT2 true true).2.2 =
      (logDetection emptyWorld "abc" 1 sampleT0 true true).2.2 ∧
    (logDetection sampleWorld "abc" 1 sampleT2 true true).2.1 =
      [LogEvent.skippedDup "ABC" 2] ∧
    (logDetection emptyWorld "abc" 1 sampleT0 true true).2.1 =
      [LogEvent.logged "ABC"] ∧
    (logDetection sampleWorld "abc" 1 sampleT2 true true).1.rows.length = 1 ∧
    (logDetection emptyWorld "abc" 1 sampleT0 true true).1.rows.length = 1 := by
  decide

/-- C3 amended: `log_detection` returns `None` on every non-raising path —
there is no structured outcome value and no `InvalidInput` outcome at all;
the four terminal paths (logged, suppressed-with-elapsed-time, image-write
failure, insert failure) are distinguishable only through the emitted
diagnostics and the state change, not through the returned value. -/
theorem outcome_surface_amended (w : World) (p : String) (c : ℚ) (now : Timestamp)
    (iOk sOk : Bool)
    (hparse : ∀ r, latestRowFor w.rows (normalizeKey p) = some r →
      (parseTimestamp r.timestamp).isSome) :
    (logDetection w p c now iOk sOk).2.2 = PyResult.ret ∧
    ((logDetection w p c now iOk sOk).2.1 = [LogEvent.logged (normalizeKey p)] ∨
     (∃ q, (logDetection w p c now iOk sOk).2.1 =
        [LogEvent.skippedDup (normalizeKey p) q]) ∨
     (logDetection w p c now iOk sOk).2.1 = [LogEvent.imwriteError (imgFilename now)] ∨
     (logDetection w p c now iOk sOk).2.1 = [LogEvent.insertError]) := by
  have hstore : ∀ key,
      (storeDetection w key c now iOk sOk).2.2 = PyResult.ret ∧
      ((storeDetection w key c now iOk sOk).2.1 = [LogEvent.logged key] ∨
       (∃ q, (storeDetection w key c now iOk sOk).2.1 = [LogEvent.skippedDup key q]) ∨
       (storeDetection w key c now iOk sOk).2.1 = [LogEvent.imwriteError (imgFilename now)] ∨
       (storeDetection w key c now iOk sOk).2.1 = [LogEvent.insertError]) := by
    intro key
    cases iOk with
    | false => rw [storeDetection_false]; exact ⟨rfl, Or.inr (Or.inr (Or.inl rfl))⟩
    | true =>
      cases sOk with
      | false => rw [storeDetection_true_false]; exact ⟨rfl, Or.inr (Or.inr (Or.inr rfl))⟩
      | true => rw [storeDetection_true_true]; exact ⟨rfl, Or.inl rfl⟩
  cases hl : latestRowFor w.rows (normalizeKey p) with
  | none => rw [logDetection_of_none w p c now iOk sOk hl]; exact hstore _
  | some r =>
    cases hp : parseTimestamp r.timestamp with
    | none =>
      have := hparse r hl
      rw [hp] at this
      exact absurd this (by simp)
    | some T =>
      by_cases hd : diffSeconds now T < 5
      · rw [logDetection_of_skip w p c now iOk sOk r T hl hp hd]
        exact ⟨rfl, Or.inr (Or.inl ⟨diffSeconds now T, rfl⟩)⟩
      · rw [logDetection_of_pass w p c now iOk sOk r T hl hp hd]
        exact hstore _

/-- Witness for C3 (amended): at the concrete suppressed call on
`sampleWorld` the function returns `None` and emits exactly one skip
diagnostic. -/
theorem outcome_surface_amended_witness :
    (logDetection sampleWorld "abc" 1 sampleT2 true true).2.2 = PyResult.ret ∧
    ((logDetection sampleWorld "abc" 1 sampleT2 true true).2.1 =
        [LogEvent.logged (normalizeKey "abc")] ∨
     (∃ q, (logDetection sampleWorld "abc" 1 sampleT2 true true).2.1 =
        [LogEvent.skippedDup (normalizeKey "abc") q]) ∨
     (logDetection sampleWorld "abc" 1 sampleT2 true true).2.1 =
        [LogEvent.imwriteError (imgFilename sampleT2)] ∨
     (logDetection sampleWorld "abc" 1 sampleT2 true true).2.1 =
        [LogEvent.insertError]) :=
  outcome_surface_amended sampleWorld "abc" 1 sampleT2 true true
    (fun r hr => by
      have h2 : latestRowFor sampleWorld.rows (normalizeKey "abc") = some sampleRow := by
        decide
      rw [h2] at hr
      rw [← Option.some.inj hr]
      decide)

/-- C4 counterexample: the claim says a call whose normalized key is empty
fails with `InvalidInput`, inserting no row and writing no image. On the
concrete call with a whitespace-only plate against the fresh store, the
code inserts a row whose `plate_text` is the empty string, writes the image
file, and returns normally — there is no `InvalidInput` path in the code. -/
theorem empty_key_counterexample :
    normalizeKey "   " = "" ∧
    (logDetection emptyWorld "   " 1 sampleT0 true true).1.rows =
      [⟨1, timestampStr sampleT0, "", 1, imgFilename sampleT0⟩] ∧
    (logDetection emptyWorld "   " 1 sampleT0 true true).1.files =
      [imgFilename sampleT0] ∧
    (logDetection emptyWorld "   " 1 sampleT0 true true).2.2 = PyResult.ret := by
  decide

/-- C4 amended: `log_detection` performs no validation of the normalized
key: a call whose normalized key is the empty string is processed exactly
like any other key, and (when no prior row for the empty key exists and
storage succeeds) it inserts a row whose `plate_text` is empty, so stored
rows can have an empty `plate_text`. -/
theorem empty_key_amended (w : World) (c : ℚ) (now : Timestamp) (p : String)
    (hkey : normalizeKey p = "") (hnone : latestRowFor w.rows "" = none) :
    (logDetection w p c now true true).1.rows =
      w.rows ++ [⟨w.nextId, timestampStr now, "", pyRound c 4, imgFilename now⟩] := by
  have h : latestRowFor w.rows (normalizeKey p) = none := by rw [hkey]; exact hnone
  rw [logDetection_of_none w p c now true true h, storeDetection_true_true, hkey]

/-- Witness for C4 (amended): the whitespace-only plate against the fresh
store inserts the empty-keyed row. -/
theorem empty_key_amended_witness :
    (logDetection emptyWorld "   " 1 sampleT0 true true).1.rows =
      emptyWorld.rows ++
        [⟨emptyWorld.nextId, timestampStr sampleT0, "", pyRound 1 4,
          imgFilename sampleT0⟩] :=
  empty_key_amended emptyWorld 1 sampleT0 "   " (by decide) (by decide)

/-- C5 counterexample: the claim says no failure escapes `log_detection` as
an uncaught exception and a malformed stored timestamp is surfaced as a
returned outcome. On the concrete store `ctWorld`, whose only row for key
`"ABC"` carries the sqlite `DEFAULT CURRENT_TIMESTAMP` shaped timestamp
`"2026-01-02 10:20:30"` (no fractional seconds), the next call for that key
escapes with an uncaught `ValueError` from `strptime`. -/
theorem exception_containment_counterexample :
    (logDetection ctWorld "abc" 1 sampleT2 true true).2.2 = PyResult.raised := by
  decide

/-- C5 amended: failures of the image write and of the metadata insert are
contained (the call returns normally, reporting a diagnostic), but the
timestamp parse of the dedup check is not: a call escapes with an uncaught
exception exactly when the most recently inserted row for the normalized
key has a timestamp that the parse rejects. -/
theorem exception_containment_amended (w : World) (p : String) (c : ℚ)
    (now : Timestamp) (iOk sOk : Bool) :
    (logDetection w p c now iOk sOk).2.2 = PyResult.raised ↔
      ∃ r, latestRowFor w.rows (normalizeKey p) = some r ∧
        parseTimestamp r.timestamp = none := by
  have hstore : ∀ key, (storeDetection w key c now iOk sOk).2.2 = PyResult.ret := by
    intro key
    cases iOk with
    | false => rw [storeDetection_false]
    | true =>
      cases sOk with
      | false => rw [storeDetection_true_false]
      | true => rw [storeDetection_true_true]
  cases hl : latestRowFor w.rows (normalizeKey p) with
  | none =>
    rw [logDetection_of_none w p c now iOk sOk hl, hstore]
    refine iff_of_false (by simp) ?_
    rintro ⟨r, hr, -⟩
    exact Option.noConfusion hr
  | some r =>
    cases hp : parseTimestamp r.timestamp with
    | none =>
      rw [logDetection_of_noParse w p c now iOk sOk r hl hp]
      exact iff_of_true rfl ⟨r, rfl, hp⟩
    | some T =>
      have hnone : ¬ ∃ r', (some r = some r') ∧ parseTimestamp r'.timestamp = none := by
        rintro ⟨r', hr', hp'⟩
        rw [← Option.some.inj hr'] at hp'
        rw [hp] at hp'
        exact Option.noConfusion hp'
      by_cases hd : diffSeconds now T < 5
      · rw [logDetection_of_skip w p c now iOk sOk r T hl hp hd]
        exact iff_of_false (by simp) hnone
      · rw [logDetection_of_pass w p c now iOk sOk r T hl hp hd, hstore]
        exact iff_of_false (by simp) hnone

/-! ## Normalization lemmas -/

theorem toNat_ofNat_valid (n : ℕ) (h : n.isValidChar) : (Char.ofNat n).toNat = n := by
  simp [Char.ofNat, dif_pos h, Char.ofNatAux, Char.toNat, UInt32.toNat, BitVec.toNat_ofNatLt]

theorem toUpper_toUpper (c : Char) : c.toUpper.toUpper = c.toUpper := by
  unfold Char.toUpper
  by_cases h : c.toNat ≥ 97 ∧ c.toNat ≤ 122
  · rw [if_pos h]
    have hv : Nat.isValidChar (c.toNat - 32) := Or.inl (by omega)
    have ht : (Char.ofNat (c.toNat - 32)).toNat = c.toNat - 32 := toNat_ofNat_valid _ hv
    rw [if_neg (by rw [ht]; omega)]
  · rw [if_neg h, if_neg h]

theorem dropWhile_dropWhile (p : Char → Bool) (l : List Char) :
    (l.dropWhile p).dropWhile p = l.dropWhile p := by
  induction l with
  | nil => rfl
  | cons c cs ih =>
    by_cases h : p c
    · simp [List.dropWhile_cons, h, ih]
    · simp [List.dropWhile_cons, h]

theorem stripRight_append_takeWhile (p : Char → Bool) (m : List Char) :
    (m.reverse.dropWhile p).reverse ++ (m.reverse.takeWhile p).reverse = m := by
  rw [← List.reverse_append, List.takeWhile_append_dropWhile, List.reverse_reverse]

theorem length_dropWhile_le (p : Char → Bool) (l : List Char) :
    (l.dropWhile p).length ≤ l.length := by
  induction l with
  | nil => simp
  | cons c cs ih =>
    by_cases h : p c
    · rw [List.dropWhile_cons, if_pos h]
      exact le_trans ih (by simp)
    · rw [List.dropWhile_cons, if_neg h]

theorem dropWhile_stripRight_of_fix (p : Char → Bool) (m : List Char)
    (hm : m.dropWhile p = m) :
    ((m.reverse.dropWhile p).reverse).dropWhile p = (m.reverse.dropWhile p).reverse := by
  have hdec := stripRight_append_takeWhile p m
  cases hsr : (m.reverse.dropWhile p).reverse with
  | nil => rfl
  | cons c n =>
    rw [hsr] at hdec
    by_cases hc : p c
    · exfalso
      have h1 : m.dropWhile p = (n ++ (m.reverse.takeWhile p).reverse).dropWhile p := by
        calc m.dropWhile p
            = ((c :: n) ++ (m.reverse.takeWhile p).reverse).dropWhile p := by rw [hdec]
          _ = (c :: (n ++ (m.reverse.takeWhile p).reverse)).dropWhile p := by
              rw [List.cons_append]
          _ = (n ++ (m.reverse.takeWhile p).reverse).dropWhile p := by
              rw [List.dropWhile_cons, if_pos hc]
      rw [hm] at h1
      have h2 := length_dropWhile_le p (n ++ (m.reverse.takeWhile p).reverse)
      have h3 := congrArg List.length h1
      have h4 := congrArg List.length hdec
      rw [List.length_append, List.length_cons] at h4
      rw [List.length_append] at h2
      omega
    · rw [List.dropWhile_cons, if_neg hc]

theorem pyStrip_idem (l : List Char) : pyStrip (pyStrip l) = pyStrip l := by
  unfold pyStrip
  have h1 := dropWhile_stripRight_of_fix Char.isWhitespace (l.dropWhile Char.isWhitespace)
    (dropWhile_dropWhile Char.isWhitespace l)
  rw [h1, List.reverse_reverse, dropWhile_dropWhile]

theorem mem_pyStrip (x : Char) (l : List Char) (h : x ∈ pyStrip l) : x ∈ l := by
  unfold pyStrip at h
  have h1 : x ∈ l.dropWhile Char.isWhitespace := by
    rw [← stripRight_append_takeWhile Char.isWhitespace (l.dropWhile Char.isWhitespace)]
    exact List.mem_append_left _ h
  rw [← List.takeWhile_append_dropWhile Char.isWhitespace l]
  exact List.mem_append_right _ h1

theorem map_id_of_fixed {f : Char → Char} (l : List Char) (h : ∀ x ∈ l, f x = x) :
    l.map f = l := by
  induction l with
  | nil => rfl
  | cons c cs ih =>
    rw [List.map_cons, h c (List.mem_cons_self c cs),
      ih (fun x hx => h x (List.mem_cons_of_mem _ hx))]

theorem map_toUpper_pyStrip (l : List Char) :
    (pyStrip (l.map Char.toUpper)).map Char.toUpper = pyStrip (l.map Char.toUpper) := by
  apply map_id_of_fixed
  intro x hx
  obtain ⟨y, -, rfl⟩ := List.mem_map.mp (mem_pyStrip x _ hx)
  exact toUpper_toUpper y

/-- C7: key normalization is idempotent — `normalize(normalize(x)) ==
normalize(x)` for every input string — and identifies case and
surrounding-whitespace variants: `normalize(" abc-123 ") ==
normalize("ABC-123") == "ABC-123"`. -/
theorem normalization_idempotent :
    (∀ s : String, normalizeKey (normalizeKey s) = normalizeKey s) ∧
    normalizeKey " abc-123 " = normalizeKey "ABC-123" ∧
    normalizeKey "ABC-123" = "ABC-123" := by
  refine ⟨fun s => ?_, by decide, by decide⟩
  show (⟨pyStrip ((normalizeKey s).data.map Char.toUpper)⟩ : String) = normalizeKey s
  have hd : (normalizeKey s).data = pyStrip (s.data.map Char.toUpper) := rfl
  rw [hd, map_toUpper_pyStrip, pyStrip_idem]
  rfl

/-- C8: on every admitted call with successful storage, the confidence
value stored in the inserted row is the supplied confidence rounded to 4
decimal digits; in particular confidence `0.123456789` is stored as
`0.1235`. -/
theorem confidence_rounding (w : World) (p : String) (c : ℚ) (now : Timestamp)
    (hgate : latestRowFor w.rows (normalizeKey p) = none ∨
      ∃ r T, latestRowFor w.rows (normalizeKey p) = some r ∧
        parseTimestamp r.timestamp = some T ∧ 5 ≤ diffSeconds now T) :
    (logDetection w p c now true true).1.rows =
      w.rows ++ [⟨w.nextId, timestampStr now, normalizeKey p, pyRound c 4, imgFilename now⟩] ∧
    pyRound (123456789 / 1000000000) 4 = 1235 / 10000 := by
  constructor
  · rcases hgate with h | ⟨r, T, hl, hp, hge⟩
    · rw [logDetection_of_none w p c now true true h, storeDetection_true_true]
    · rw [logDetection_of_pass w p c now true true r T hl hp (not_lt.mpr hge),
        storeDetection_true_true]
  · have h1 : (123456789 / 1000000000 : ℚ) = Rat.divInt 123456789 1000000000 := by
      rw [Rat.divInt_eq_div]; norm_num
    have h2 : (1235 / 10000 : ℚ) = Rat.divInt 1235 10000 := by
      rw [Rat.divInt_eq_div]; norm_num
    rw [h1, h2]
    decide

/-- Witness for C8: the first call for key `"ABC"` on the fresh store
inserts the row with the rounded confidence. -/
theorem confidence_rounding_witness :
    (logDetection emptyWorld "abc" (123456789 / 1000000000) sampleT0 true true).1.rows =
      emptyWorld.rows ++
        [⟨emptyWorld.nextId, timestampStr sampleT0, normalizeKey "abc",
          pyRound (123456789 / 1000000000) 4, imgFilename sampleT0⟩] ∧
    pyRound (123456789 / 1000000000) 4 = 1235 / 10000 :=
  confidence_rounding emptyWorld "abc" (123456789 / 1000000000) sampleT0
    (Or.inl (by decide))

/-! ## Filename uniqueness -/

theorem dig_inj (m n k : ℕ) (h : dig m k = dig n k) : m / 10 ^ k % 10 = n / 10 ^ k % 10 := by
  have hd : ∀ a, a < 10 → ∀ b, b < 10 → Nat.digitChar a = Nat.digitChar b → a = b := by
    decide
  exact hd _ (Nat.mod_lt _ (by norm_num)) _ (Nat.mod_lt _ (by norm_num)) h

theorem daysInMonth_le (y m : ℕ) : daysInMonth y m ≤ 31 := by
  unfold daysInMonth
  split_ifs <;> omega

/-- C9: the image filename encodes the generation timestamp to microsecond
granularity, so two admissions whose generation timestamps differ (at
microsecond resolution — the model's `Timestamp` has exactly that
granularity) produce distinct filenames. -/
theorem filename_unique (t1 t2 : Timestamp) (h1 : t1.canonical) (h2 : t2.canonical)
    (hne : t1 ≠ t2) : imgFilename t1 ≠ imgFilename t2 := by
  intro he
  apply hne
  have hl : imgFilenameChars t1 = imgFilenameChars t2 := congrArg String.data he
  simp only [imgFilenameChars, List.cons.injEq, and_true, true_and] at hl
  obtain ⟨hy3, hy2, hy1, hy0, hm1, hm0, hd1, hd0, hh1, hh0, hmi1, hmi0, hs1, hs0,
    hu5, hu4, hu3, hu2, hu1, hu0⟩ := hl
  obtain ⟨⟨-, hy1b, -, hmo1b, -, hda1b, hh1b, hmi1b, hs1b, hu1b⟩, -⟩ := h1
  obtain ⟨⟨-, hy2b, -, hmo2b, -, hda2b, hh2b, hmi2b, hs2b, hu2b⟩, -⟩ := h2
  have hda1c := le_trans hda1b (daysInMonth_le t1.year t1.month)
  have hda2c := le_trans hda2b (daysInMonth_le t2.year t2.month)
  have ey : t1.year = t2.year := by
    have e3 := dig_inj _ _ 3 hy3
    have e2 := dig_inj _ _ 2 hy2
    have e1 := dig_inj _ _ 1 hy1
    have e0 := dig_inj _ _ 0 hy0
    norm_num at e3 e2 e1 e0
    omega
  have em : t1.month = t2.month := by
    have e1 := dig_inj _ _ 1 hm1
    have e0 := dig_inj _ _ 0 hm0
    norm_num at e1 e0
    omega
  have ed : t1.day = t2.day := by
    have e1 := dig_inj _ _ 1 hd1
    have e0 := dig_inj _ _ 0 hd0
    norm_num at e1 e0
    omega
  have eh : t1.hour = t2.hour := by
    have e1 := dig_inj _ _ 1 hh1
    have e0 := dig_inj _ _ 0 hh0
    norm_num at e1 e0
    omega
  have emi : t1.minute = t2.minute := by
    have e1 := dig_inj _ _ 1 hmi1
    have e0 := dig_inj _ _ 0 hmi0
    norm_num at e1 e0
    omega
  have es : t1.second = t2.second := by
    have e1 := dig_inj _ _ 1 hs1
    have e0 := dig_inj _ _ 0 hs0
    norm_num at e1 e0
    omega
  have eu : t1.micro = t2.micro := by
    have e5 := dig_inj _ _ 5 hu5
    have e4 := dig_inj _ _ 4 hu4
    have e3 := dig_inj _ _ 3 hu3
    have e2 := dig_inj _ _ 2 hu2
    have e1 := dig_inj _ _ 1 hu1
    have e0 := dig_inj _ _ 0 hu0
    norm_num at e5 e4 e3 e2 e1 e0
    omega
  calc t1 = ⟨t1.year, t1.month, t1.day, t1.hour, t1.minute, t1.second, t1.micro⟩ := rfl
    _ = ⟨t2.year, t2.month, t2.day, t2.hour, t2.minute, t2.second, t2.micro⟩ := by
        rw [ey, em, ed, eh, emi, es, eu]
    _ = t2 := rfl

/-- Witness for C9: two concrete clock values two seconds apart get
distinct image filenames. -/
theorem filename_unique_witness : imgFilename sampleT0 ≠ imgFilename sampleT2 :=
  filename_unique sampleT0 sampleT2 (by decide) (by decide) (by decide)

/-! ## Timestamp format lemmas -/

theorem dig_isDigit (n k : ℕ) : (dig n k).isDigit = true := by
  have h : ∀ a, a < 10 → (Nat.digitChar a).isDigit = true := by decide
  exact h _ (Nat.mod_lt _ (by norm_num))

theorem digitVal_dig (n k : ℕ) : digitVal (dig n k) = n / 10 ^ k % 10 := by
  have h : ∀ a, a < 10 → digitVal (Nat.digitChar a) = a := by decide
  exact h _ (Nat.mod_lt _ (by norm_num))

theorem takeDigits_zero (l : List Char) : takeDigits 0 l = ([], l) := by
  cases l <;> rfl

theorem takeDigits_cons_dig (n m k : ℕ) (r : List Char) :
    takeDigits (n + 1) (dig m k :: r) =
      (dig m k :: (takeDigits n r).1, (takeDigits n r).2) := by
  simp [takeDigits, dig_isDigit]

theorem parseField4_dig (y : ℕ) (h : y ≤ 9999) (rest : List Char) :
    parseField 4 (dig y 3 :: dig y 2 :: dig y 1 :: dig y 0 :: rest) = some (y, rest) := by
  simp [parseField, takeDigits_cons_dig, takeDigits_zero, digitsVal, digitVal_dig]
  omega

theorem parseField2_dig (n : ℕ) (h : n ≤ 99) (rest : List Char) :
    parseField 2 (dig n 1 :: dig n 0 :: rest) = some (n, rest) := by
  simp [parseField, takeDigits_cons_dig, takeDigits_zero, digitsVal, digitVal_dig]
  omega

theorem expectChar_cons (c : Char) (rest : List Char) :
    expectChar c (c :: rest) = some rest := by
  simp [expectChar]

theorem takeDigits6_dig (u : ℕ) :
    takeDigits 6 [dig u 5, dig u 4, dig u 3, dig u 2, dig u 1, dig u 0] =
      ([dig u 5, dig u 4, dig u 3, dig u 2, dig u 1, dig u 0], []) := by
  simp [takeDigits_cons_dig, takeDigits_zero]

theorem digitsVal6_dig (u : ℕ) (h : u ≤ 999999) :
    digitsVal [dig u 5, dig u 4, dig u 3, dig u 2, dig u 1, dig u 0] = u := by
  simp [digitsVal, digitVal_dig]
  omega

set_option maxHeartbeats 4000000 in
theorem parse_timestampStr (t : Timestamp) (h : t.canonical) :
    parseTimestamp (timestampStr t) = some t := by
  obtain ⟨hv, hy4⟩ := h
  obtain ⟨h1, h2, h3, h4, h5, h6, h7, h8, h9, h10⟩ := id hv
  have hy : t.year ≤ 9999 := h2
  have hmo : t.month ≤ 99 := by omega
  have hda : t.day ≤ 99 := by
    have := le_trans h6 (daysInMonth_le t.year t.month)
    omega
  have hho : t.hour ≤ 99 := by omega
  have hmi : t.minute ≤ 99 := by omega
  have hse : t.second ≤ 99 := by omega
  unfold parseTimestamp timestampStr timestampChars
  simp only [parseField4_dig _ hy, parseField2_dig _ hmo, parseField2_dig _ hda,
    parseField2_dig _ hho, parseField2_dig _ hmi, parseField2_dig _ hse,
    expectChar_cons, Option.bind_eq_bind, Option.some_bind, Option.pure_def,
    takeDigits6_dig, digitsVal6_dig _ h10, List.length_cons, List.length_nil]
  norm_num
  exact fun hc => absurd hv hc

/-- C10: every row inserted by `log_detection` stores its timestamp in
exactly the `"%Y-%m-%d %H:%M:%S.%f"` format, and that format is accepted by
the dedup check's parse (so a key whose latest row was written by
`log_detection` parses successfully on the next call), while a
`DEFAULT CURRENT_TIMESTAMP`-shaped timestamp (no fractional seconds) fails
the parse and makes the next call for that key raise. -/
theorem timestamp_format_invariant (t : Timestamp) (ht : t.canonical)
    (w : World) (p : String) (c : ℚ) (now : Timestamp) (iOk sOk : Bool) (r : Row)
    (hl : latestRowFor w.rows (normalizeKey p) = some r)
    (hbad : parseTimestamp r.timestamp = none) :
    parseTimestamp (timestampStr t) = some t ∧
    (∀ (w2 : World) (p2 : String) (c2 : ℚ) (now2 : Timestamp) (sOk2 : Bool),
      ((logDetection w2 p2 c2 now2 true sOk2).1.rows.all
        (fun row => w2.rows.contains row || row.timestamp == timestampStr now2)) = true) ∧
    parseTimestamp "2026-01-02 10:20:30" = none ∧
    logDetection w p c now iOk sOk = (w, [], PyResult.raised) := by
  refine ⟨parse_timestampStr t ht, ?_, by decide,
    logDetection_of_noParse w p c now iOk sOk r hl hbad⟩
  intro w2 p2 c2 now2 sOk2
  rcases logDetection_rows_cases w2 p2 c2 now2 true sOk2 with h | h <;> rw [h] <;>
    simp only [List.all_eq_true] <;> intro row hrow
  · simp only [Bool.or_eq_true, List.contains_eq_any_beq, List.any_eq_true, beq_iff_eq]
    exact Or.inl ⟨row, hrow, rfl⟩
  · rcases List.mem_append.mp hrow with h1 | h1
    · simp only [Bool.or_eq_true, List.contains_eq_any_beq, List.any_eq_true, beq_iff_eq]
      exact Or.inl ⟨row, h1, rfl⟩
    · rw [List.mem_singleton.mp h1]
      simp

/-- Witness for C10: the concrete clock value `sampleT0` round-trips
through the stored format, and the store `ctWorld`, whose latest row for
key `"ABC"` has a `DEFAULT CURRENT_TIMESTAMP`-shaped timestamp, makes the
next call for that key raise. -/
theorem timestamp_format_invariant_witness :
    parseTimestamp (timestampStr sampleT0) = some sampleT0 ∧
    logDetection ctWorld "abc" 1 sampleT2 true true = (ctWorld, [], PyResult.raised) :=
  ⟨(timestamp_format_invariant sampleT0 (by decide) ctWorld "abc" 1 sampleT2 true true
      ctRow (by decide) (by decide)).1,
   (timestamp_format_invariant sampleT0 (by decide) ctWorld "abc" 1 sampleT2 true true
      ctRow (by decide) (by decide)).2.2.2⟩

/-- C6: `get_plate_history(p)` performs no writes (the store is returned
unchanged), returns exactly the `(timestamp, confidence)` pairs of the rows
whose `plate_text` equals the normalized key (as a permutation — the order
is fixed by the sort), sorted by timestamp descending (newest first), and
returns the empty sequence exactly when no row for that key exists. -/
theorem history_query (w : World) (p : String) :
    (getPlateHistory w p).1 = w ∧
    ((getPlateHistory w p).2).Perm
      ((w.rows.filter (fun r => r.plate_text == normalizeKey p)).map
        (fun r => (r.timestamp, r.confidence))) ∧
    ((getPlateHistory w p).2).Pairwise (fun a b => b.1 ≤ a.1) ∧
    ((getPlateHistory w p).2 = [] ↔
      w.rows.filter (fun r => r.plate_text == normalizeKey p) = []) := by
  have hdef : (getPlateHistory w p).2 =
      (List.insertionSort histLe
        (w.rows.filter (fun r => r.plate_text == normalizeKey p))).map
        (fun r => (r.timestamp, r.confidence)) := rfl
  refine ⟨rfl, ?_, ?_, ?_⟩
  · rw [hdef]
    exact List.Perm.map _ (List.perm_insertionSort histLe _)
  · rw [hdef]
    exact List.Pairwise.map _ (fun a b hab => hab)
      (List.sorted_insertionSort histLe
        (w.rows.filter (fun r => r.plate_text == normalizeKey p)))
  · rw [hdef, List.map_eq_nil_iff]
    constructor
    · intro h
      have hlen := (List.perm_insertionSort histLe
        (w.rows.filter (fun r => r.plate_text == normalizeKey p))).length_eq
      rw [h] at hlen
      exact List.length_eq_zero.mp hlen.symm
    · intro h
      rw [h]
      rfl
